import Mathlib

/-!
# Verification of the scrapingGoogle pipelines

Shallow embedding of the two Python scripts `Google100.py` and
`GoogleNews100.py` of the `Gharbeurg/scrapingGoogle` repository, together
with proofs of the specification's testable properties.

Pure string processing (the text normalizer `clean_text`, deduplication,
URL resolution, the result writer, the pagination loop) is embedded
directly.  Effectful library calls (`requests.get`, BeautifulSoup text
extraction, readability, Playwright) are abstracted as oracle functions
packaged in "world" structures; the scripts' own control flow over those
results is embedded faithfully.

Strings are modelled as Lean `String`s (lists of characters); the regex
substitutions of `clean_text` are embedded as recursive functions on
`List Char` whose equivalence to the leftmost-greedy regex semantics is
argued per substitution in the doc comments.
-/

/-! ## Python string primitives -/

/-- The character class `[ \t]` used by the `clean_text` regexes. -/
def isHT (c : Char) : Bool := c = ' ' || c = '\t'

/-- Python `str.isspace` / the character set removed by `str.strip()`:
ASCII whitespace, the C1 and Unicode space characters. -/
def isPyWS (c : Char) : Bool :=
  c = ' ' || c = '\t' || c = '\n' || c = '\r' || c = '\x0b' || c = '\x0c' ||
  c = '\x1c' || c = '\x1d' || c = '\x1e' || c = '\x1f' ||
  c = '\x85' || c = '\xa0' || c = ' ' ||
  (' ' ≤ c && c ≤ ' ') ||
  c = ' ' || c = ' ' || c = ' ' || c = ' ' || c = '　'

/-- `re.sub(r"\r\n?", "\n", ·)`: every `"\r\n"` pair and every lone `'\r'`
becomes a single `'\n'` (leftmost-greedy, so a `'\r'` followed by `'\n'`
consumes that `'\n'`). -/
def subCR : List Char → List Char
  | [] => []
  | [c] => if c = '\r' then ['\n'] else [c]
  | a :: b :: rest =>
    if a = '\r' then
      if b = '\n' then '\n' :: subCR rest
      else '\n' :: subCR (b :: rest)
    else a :: subCR (b :: rest)

/-- `re.sub(r"[ \t]+\n", "\n", ·)`: a space/tab is deleted exactly when it
is followed (through further spaces/tabs) by a newline; processing the list
from the right, that is the case exactly when the already-processed suffix
starts with `'\n'`. -/
def subTrailWS : List Char → List Char
  | [] => []
  | c :: rest =>
    let acc := subTrailWS rest
    if isHT c ∧ acc.head? = some '\n' then acc else c :: acc

/-- `re.sub(r"\n{3,}", "\n\n", ·)`: a newline is deleted exactly when the
already-processed suffix starts with two newlines, so every maximal run of
`n ≥ 3` newlines keeps its last two. -/
def subNL3 : List Char → List Char
  | [] => []
  | c :: rest =>
    let acc := subNL3 rest
    if c = '\n' ∧ acc.head? = some '\n' ∧ acc.tail.head? = some '\n' then acc
    else c :: acc

/-- `re.sub(r"[ \t]{2,}", " ", ·)`: every maximal run of two or more
spaces/tabs becomes a single space (a lone space or tab is unchanged);
processing from the right, a space/tab whose processed suffix starts with a
space/tab merges into a single `' '`. -/
def subHT2 : List Char → List Char
  | [] => []
  | c :: rest =>
    let acc := subHT2 rest
    if isHT c ∧ (∃ d, acc.head? = some d ∧ isHT d) then ' ' :: acc.tail
    else c :: acc

/-- Python `str.strip()`, left half. -/
def lstripWS (l : List Char) : List Char := l.dropWhile (fun c => isPyWS c)

/-- Python `str.strip()`, right half. -/
def rstripWS (l : List Char) : List Char :=
  (l.reverse.dropWhile (fun c => isPyWS c)).reverse

/-- Python `str.strip()` on a character list. -/
def pyStrip (l : List Char) : List Char := rstripWS (lstripWS l)

/-- Python `str.strip()` on a `String`. -/
def pyStripS (s : String) : String := ⟨pyStrip s.data⟩

/-- `clean_text` of both `Google100.py` and `GoogleNews100.py` (the two
definitions are textually identical), on a character list. -/
def cleanTextL (l : List Char) : List Char :=
  pyStrip (subHT2 (subNL3 (subTrailWS (subCR l))))

/-- `clean_text(text)`: the four `re.sub` passes followed by `.strip()`. -/
def clean_text (s : String) : String := ⟨cleanTextL s.data⟩

/-- `listPre p l` decides whether `p` is a leading segment of `l`. -/
def listPre : List Char → List Char → Bool
  | [], _ => true
  | _ :: _, [] => false
  | a :: as, b :: bs => a = b && listPre as bs

/-- `listInfix n l` decides whether `n` occurs contiguously inside `l`. -/
def listInfix (n : List Char) : List Char → Bool
  | [] => listPre n []
  | b :: bs => listPre n (b :: bs) || listInfix n bs

/-- Python `needle in hay` substring test. -/
def pyIn (needle hay : String) : Bool := listInfix needle.data hay.data

/-- Python `s.startswith(p)`. -/
def pyStartswith (s p : String) : Bool := listPre p.data s.data

/-- Python `s.lower()` (ASCII case folding suffices for the constants the
scripts compare against). -/
def lowerStr (s : String) : String := ⟨s.data.map Char.toLower⟩

example : clean_text "  a \t\nb\r\n\n\n\nc   d  " = "a\nb\n\nc d" := by decide
example : clean_text "a   b" = "a b" := by decide

/-! ## Normal-form predicates for `clean_text`

`clean_text`'s output contains no carriage return, no space/tab directly
before a newline, no run of three newlines, no run of two spaces/tabs, and
no leading/trailing whitespace.  Each predicate below captures one of these
facts; together they characterise a fixed point of `clean_text`. -/

/-- No space/tab is immediately followed by a newline. -/
def noHTNL : List Char → Prop
  | a :: b :: rest => ¬(isHT a ∧ b = '\n') ∧ noHTNL (b :: rest)
  | _ => True

/-- No three consecutive newlines. -/
def noNL3 : List Char → Prop
  | a :: b :: c :: rest => ¬(a = '\n' ∧ b = '\n' ∧ c = '\n') ∧ noNL3 (b :: c :: rest)
  | _ => True

/-- No two consecutive spaces/tabs. -/
def noHT2 : List Char → Prop
  | a :: b :: rest => ¬(isHT a ∧ isHT b) ∧ noHT2 (b :: rest)
  | _ => True

/-- The first character (if any) is not Python whitespace. -/
def headNotWS (l : List Char) : Prop := ∀ c, l.head? = some c → ¬ isPyWS c

/-- Neither end of the list carries Python whitespace. -/
def strippedEnds (l : List Char) : Prop := headNotWS l ∧ headNotWS l.reverse

theorem noHTNL_nil : noHTNL [] := trivial

theorem noHTNL_single (a : Char) : noHTNL [a] := trivial

theorem noHTNL_tail {a : Char} {l : List Char} (h : noHTNL (a :: l)) : noHTNL l := by
  cases l with
  | nil => trivial
  | cons b t => exact h.2

theorem noNL3_tail {a : Char} {l : List Char} (h : noNL3 (a :: l)) : noNL3 l := by
  cases l with
  | nil => trivial
  | cons b t =>
    cases t with
    | nil => trivial
    | cons c r => exact h.2

theorem noHT2_tail {a : Char} {l : List Char} (h : noHT2 (a :: l)) : noHT2 l := by
  cases l with
  | nil => trivial
  | cons b t => exact h.2

theorem noHTNL_append_left : ∀ l t : List Char, noHTNL (l ++ t) → noHTNL l
  | [], _, _ => trivial
  | [_], _, _ => trivial
  | a :: b :: rest, t, h => by
    rw [List.cons_append, List.cons_append] at h
    exact ⟨h.1, noHTNL_append_left (b :: rest) t h.2⟩

theorem noNL3_append_left : ∀ l t : List Char, noNL3 (l ++ t) → noNL3 l
  | [], _, _ => trivial
  | [_], _, _ => trivial
  | [_, _], _, _ => trivial
  | a :: b :: c :: rest, t, h => by
    rw [List.cons_append, List.cons_append, List.cons_append] at h
    exact ⟨h.1, noNL3_append_left (b :: c :: rest) t h.2⟩

theorem noHT2_append_left : ∀ l t : List Char, noHT2 (l ++ t) → noHT2 l
  | [], _, _ => trivial
  | [_], _, _ => trivial
  | a :: b :: rest, t, h => by
    rw [List.cons_append, List.cons_append] at h
    exact ⟨h.1, noHT2_append_left (b :: rest) t h.2⟩

theorem noHTNL_append_right : ∀ t l : List Char, noHTNL (t ++ l) → noHTNL l
  | [], _, h => h
  | _ :: t', l, h => noHTNL_append_right t' l (noHTNL_tail (l := t' ++ l) h)

theorem noNL3_append_right : ∀ t l : List Char, noNL3 (t ++ l) → noNL3 l
  | [], _, h => h
  | _ :: t', l, h => noNL3_append_right t' l (noNL3_tail (l := t' ++ l) h)

theorem noHT2_append_right : ∀ t l : List Char, noHT2 (t ++ l) → noHT2 l
  | [], _, h => h
  | _ :: t', l, h => noHT2_append_right t' l (noHT2_tail (l := t' ++ l) h)

/-- `dropWhile` removes a leading segment. -/
theorem dropWhile_decomp {α : Type} (p : α → Bool) :
    ∀ l : List α, ∃ t, l = t ++ l.dropWhile p := by
  intro l
  induction l with
  | nil => exact ⟨[], rfl⟩
  | cons c rest ih =>
    by_cases hc : p c
    · obtain ⟨t, ht⟩ := ih
      exact ⟨c :: t, by simp [List.dropWhile, hc]; exact ht⟩
    · exact ⟨[], by simp [List.dropWhile, hc]⟩

/-- The head of `dropWhile p l` does not satisfy `p`. -/
theorem head_dropWhile_not {α : Type} (p : α → Bool) :
    ∀ l : List α, ∀ c, (l.dropWhile p).head? = some c → ¬ p c := by
  intro l
  induction l with
  | nil => intro c h; simp [List.dropWhile] at h
  | cons a rest ih =>
    intro c h
    by_cases ha : p a
    · exact ih c (by simpa [List.dropWhile, ha] using h)
    · simp [List.dropWhile, ha] at h
      subst h; exact ha

theorem noHTNL_cons₂ {a b : Char} {l : List Char} :
    noHTNL (a :: b :: l) ↔ ¬(isHT a ∧ b = '\n') ∧ noHTNL (b :: l) := Iff.rfl

theorem noNL3_cons₃ {a b c : Char} {l : List Char} :
    noNL3 (a :: b :: c :: l) ↔ ¬(a = '\n' ∧ b = '\n' ∧ c = '\n') ∧ noNL3 (b :: c :: l) :=
  Iff.rfl

theorem noHT2_cons₂ {a b : Char} {l : List Char} :
    noHT2 (a :: b :: l) ↔ ¬(isHT a ∧ isHT b) ∧ noHT2 (b :: l) := Iff.rfl

/-! ### The output of each pass satisfies its normal-form predicate -/

theorem subCR_noCR : ∀ l : List Char, '\r' ∉ subCR l
  | [] => by simp [subCR]
  | [c] => by
    by_cases hc : c = '\r'
    · simp [subCR, hc]
    · simp [subCR, hc]
      exact fun h => hc h.symm
  | a :: b :: rest => by
    by_cases ha : a = '\r'
    · by_cases hb : b = '\n'
      · simpa [subCR, ha, hb] using subCR_noCR rest
      · simpa [subCR, ha, hb] using subCR_noCR (b :: rest)
    · have ih := subCR_noCR (b :: rest)
      simp [subCR, ha]
      exact ⟨fun h => ha h.symm, ih⟩

theorem subTrailWS_noHTNL : ∀ l : List Char, noHTNL (subTrailWS l)
  | [] => trivial
  | c :: rest => by
    have ih := subTrailWS_noHTNL rest
    simp only [subTrailWS]
    split
    · exact ih
    · rename_i hneg
      cases hacc : subTrailWS rest with
      | nil => trivial
      | cons d t =>
        rw [hacc] at ih
        refine noHTNL_cons₂.mpr ⟨?_, ih⟩
        rintro ⟨hHT, rfl⟩
        exact hneg ⟨hHT, by rw [hacc]; rfl⟩

theorem subNL3_head : ∀ l : List Char, (subNL3 l).head? = l.head?
  | [] => rfl
  | c :: rest => by
    simp only [subNL3]
    split
    · rename_i hc
      rw [hc.2.1, List.head?_cons, hc.1]
    · rw [List.head?_cons, List.head?_cons]

theorem subNL3_noNL3 : ∀ l : List Char, noNL3 (subNL3 l)
  | [] => trivial
  | c :: rest => by
    have ih := subNL3_noNL3 rest
    simp only [subNL3]
    split
    · exact ih
    · rename_i hneg
      cases hacc : subNL3 rest with
      | nil => trivial
      | cons d t =>
        cases t with
        | nil => trivial
        | cons e t2 =>
          rw [hacc] at ih
          refine noNL3_cons₃.mpr ⟨?_, ih⟩
          rintro ⟨h1, h2, h3⟩
          exact hneg ⟨h1, by rw [hacc, h2]; rfl, by rw [hacc]; simpa using h3⟩

theorem subHT2_noHT2 : ∀ l : List Char, noHT2 (subHT2 l)
  | [] => trivial
  | c :: rest => by
    have ih := subHT2_noHT2 rest
    simp only [subHT2]
    split
    · rename_i hcond
      obtain ⟨hc, d, hd, hdHT⟩ := hcond
      cases hacc : subHT2 rest with
      | nil => trivial
      | cons d' t =>
        rw [hacc] at ih hd
        simp only [List.head?_cons, Option.some.injEq] at hd
        subst hd
        simp only [List.tail_cons]
        cases t with
        | nil => trivial
        | cons e t2 =>
          refine noHT2_cons₂.mpr ⟨?_, noHT2_tail ih⟩
          rintro ⟨_, heHT⟩
          exact ih.1 ⟨hdHT, heHT⟩
    · rename_i hneg
      cases hacc : subHT2 rest with
      | nil => trivial
      | cons d t =>
        rw [hacc] at ih
        refine noHT2_cons₂.mpr ⟨?_, ih⟩
        rintro ⟨hcHT, hdHT⟩
        exact hneg ⟨hcHT, d, by rw [hacc]; rfl, hdHT⟩

theorem rstripWS_decomp : ∀ l : List Char, ∃ t, l = rstripWS l ++ t := by
  intro l
  obtain ⟨t, ht⟩ := dropWhile_decomp (fun c => isPyWS c) l.reverse
  refine ⟨t.reverse, ?_⟩
  have h2 := congrArg List.reverse ht
  simpa [rstripWS] using h2

theorem pyStrip_strippedEnds (l : List Char) : strippedEnds (pyStrip l) := by
  constructor
  · intro c hc
    obtain ⟨t, ht⟩ := rstripWS_decomp (lstripWS l)
    have hx : (lstripWS l).head? = some c := by
      rcases hr : rstripWS (lstripWS l) with _ | ⟨a, r⟩
      · rw [pyStrip, hr] at hc; simp at hc
      · rw [pyStrip, hr, List.head?_cons] at hc
        rw [ht, hr, List.cons_append, List.head?_cons]
        exact hc
    exact head_dropWhile_not _ l c hx
  · intro c hc
    have hrev : (pyStrip l).reverse = (lstripWS l).reverse.dropWhile (fun c => isPyWS c) := by
      simp [pyStrip, rstripWS]
    rw [hrev] at hc
    exact head_dropWhile_not _ _ c hc

/-! ### Later passes preserve the earlier normal forms -/

theorem mem_subTrailWS : ∀ l : List Char, ∀ c, c ∈ subTrailWS l → c ∈ l
  | [], c, h => by simp [subTrailWS] at h
  | a :: rest, c, h => by
    simp only [subTrailWS] at h
    split at h
    · exact List.mem_cons_of_mem _ (mem_subTrailWS rest c h)
    · rcases List.mem_cons.mp h with h | h
      · simp [h]
      · exact List.mem_cons_of_mem _ (mem_subTrailWS rest c h)

theorem mem_subNL3 : ∀ l : List Char, ∀ c, c ∈ subNL3 l → c ∈ l
  | [], c, h => by simp [subNL3] at h
  | a :: rest, c, h => by
    simp only [subNL3] at h
    split at h
    · exact List.mem_cons_of_mem _ (mem_subNL3 rest c h)
    · rcases List.mem_cons.mp h with h | h
      · simp [h]
      · exact List.mem_cons_of_mem _ (mem_subNL3 rest c h)

theorem mem_subHT2 : ∀ l : List Char, ∀ c, c ∈ subHT2 l → c ∈ l ∨ c = ' '
  | [], c, h => by simp [subHT2] at h
  | a :: rest, c, h => by
    simp only [subHT2] at h
    split at h
    · rcases List.mem_cons.mp h with h | h
      · right; exact h
      · have hm : c ∈ subHT2 rest := List.mem_of_mem_tail h
        rcases mem_subHT2 rest c hm with h' | h'
        · exact Or.inl (List.mem_cons_of_mem _ h')
        · exact Or.inr h'
    · rcases List.mem_cons.mp h with h | h
      · exact Or.inl (by simp [h])
      · rcases mem_subHT2 rest c h with h' | h'
        · exact Or.inl (List.mem_cons_of_mem _ h')
        · exact Or.inr h'

theorem mem_pyStrip (l : List Char) (c : Char) (h : c ∈ pyStrip l) : c ∈ l := by
  obtain ⟨t2, ht2⟩ := rstripWS_decomp (lstripWS l)
  obtain ⟨t1, ht1⟩ := dropWhile_decomp (fun c => isPyWS c) l
  have h1 : c ∈ lstripWS l := by rw [ht2]; exact List.mem_append_left _ h
  rw [ht1]
  exact List.mem_append_right _ h1

theorem subNL3_noHTNL : ∀ l : List Char, noHTNL l → noHTNL (subNL3 l)
  | [], _ => trivial
  | c :: rest, h => by
    have ih := subNL3_noHTNL rest (noHTNL_tail h)
    simp only [subNL3]
    split
    · exact ih
    · cases hacc : subNL3 rest with
      | nil => trivial
      | cons d t =>
        rw [hacc] at ih
        refine noHTNL_cons₂.mpr ⟨?_, ih⟩
        rintro ⟨hHT, rfl⟩
        have hh : rest.head? = some '\n' := by rw [← subNL3_head rest, hacc]; rfl
        cases rest with
        | nil => simp at hh
        | cons e t2 =>
          simp only [List.head?_cons, Option.some.injEq] at hh
          exact h.1 ⟨hHT, hh⟩

theorem subHT2_head_nl : ∀ l : List Char, (subHT2 l).head? = some '\n' → l.head? = some '\n'
  | [], h => by simp [subHT2] at h
  | c :: rest, h => by
    simp only [subHT2] at h
    split at h
    · rw [List.head?_cons] at h
      exact absurd (Option.some.inj h) (by decide)
    · rw [List.head?_cons] at h
      rw [List.head?_cons, Option.some.inj h]

theorem subHT2_cons_nl : ∀ l : List Char, (subHT2 l).head? = some '\n' →
    ∃ rest, l = '\n' :: rest ∧ subHT2 l = '\n' :: subHT2 rest
  | [], h => by simp [subHT2] at h
  | c :: rest, h => by
    simp only [subHT2] at h
    split at h
    · rw [List.head?_cons] at h
      exact absurd (Option.some.inj h) (by decide)
    · rename_i hneg
      rw [List.head?_cons] at h
      have hc := Option.some.inj h
      subst hc
      refine ⟨rest, rfl, ?_⟩
      simp only [subHT2]
      rw [if_neg hneg]

theorem subHT2_noHTNL : ∀ l : List Char, noHTNL l → noHTNL (subHT2 l)
  | [], _ => trivial
  | c :: rest, h => by
    have ih := subHT2_noHTNL rest (noHTNL_tail h)
    simp only [subHT2]
    split
    · rename_i hcond
      obtain ⟨hcHT, d, hd, hdHT⟩ := hcond
      cases hacc : subHT2 rest with
      | nil => trivial
      | cons d' t =>
        rw [hacc] at ih hd
        simp only [List.head?_cons, Option.some.injEq] at hd
        subst hd
        simp only [List.tail_cons]
        cases t with
        | nil => trivial
        | cons e t2 =>
          refine noHTNL_cons₂.mpr ⟨?_, noHTNL_tail ih⟩
          rintro ⟨_, rfl⟩
          exact ih.1 ⟨hdHT, rfl⟩
    · cases hacc : subHT2 rest with
      | nil => trivial
      | cons d t =>
        rw [hacc] at ih
        refine noHTNL_cons₂.mpr ⟨?_, ih⟩
        rintro ⟨hcHT, rfl⟩
        have hh : rest.head? = some '\n' := subHT2_head_nl rest (by rw [hacc]; rfl)
        cases rest with
        | nil => simp at hh
        | cons e t2 =>
          simp only [List.head?_cons, Option.some.injEq] at hh
          exact h.1 ⟨hcHT, hh⟩

theorem subHT2_noNL3 : ∀ l : List Char, noNL3 l → noNL3 (subHT2 l)
  | [], _ => trivial
  | c :: rest, h => by
    have ih := subHT2_noNL3 rest (noNL3_tail h)
    simp only [subHT2]
    split
    · cases hacc : subHT2 rest with
      | nil => trivial
      | cons d t =>
        rw [hacc] at ih
        simp only [List.tail_cons]
        cases t with
        | nil => trivial
        | cons e t2 =>
          cases t2 with
          | nil => trivial
          | cons f t3 =>
            refine noNL3_cons₃.mpr ⟨?_, noNL3_tail ih⟩
            rintro ⟨h1, _, _⟩
            exact absurd h1 (by decide)
    · cases hacc : subHT2 rest with
      | nil => trivial
      | cons d t =>
        rw [hacc] at ih
        cases t with
        | nil => trivial
        | cons e t2 =>
          refine noNL3_cons₃.mpr ⟨?_, ih⟩
          rintro ⟨rfl, hd, he⟩
          obtain ⟨r1, hr1, hsub⟩ := subHT2_cons_nl rest (by rw [hacc, hd]; rfl)
          have ht : e :: t2 = subHT2 r1 := by
            have := hacc.symm.trans hsub
            exact (List.cons.injEq _ _ _ _ ▸ this).2
          have hr1h : r1.head? = some '\n' := subHT2_head_nl r1 (by rw [← ht, List.head?_cons, he])
          cases r1 with
          | nil => simp at hr1h
          | cons g t4 =>
            simp only [List.head?_cons, Option.some.injEq] at hr1h
            subst hr1h
            rw [hr1] at h
            exact h.1 ⟨rfl, rfl, rfl⟩

theorem noHTNL_pyStrip (l : List Char) (h : noHTNL l) : noHTNL (pyStrip l) := by
  obtain ⟨t1, ht1⟩ := dropWhile_decomp (fun c => isPyWS c) l
  have h1 : noHTNL (lstripWS l) :=
    noHTNL_append_right t1 _ (by unfold lstripWS; rw [← ht1]; exact h)
  obtain ⟨t2, ht2⟩ := rstripWS_decomp (lstripWS l)
  have h2 : noHTNL (rstripWS (lstripWS l)) :=
    noHTNL_append_left _ t2 (by rw [← ht2]; exact h1)
  exact h2

theorem noNL3_pyStrip (l : List Char) (h : noNL3 l) : noNL3 (pyStrip l) := by
  obtain ⟨t1, ht1⟩ := dropWhile_decomp (fun c => isPyWS c) l
  have h1 : noNL3 (lstripWS l) :=
    noNL3_append_right t1 _ (by unfold lstripWS; rw [← ht1]; exact h)
  obtain ⟨t2, ht2⟩ := rstripWS_decomp (lstripWS l)
  have h2 : noNL3 (rstripWS (lstripWS l)) :=
    noNL3_append_left _ t2 (by rw [← ht2]; exact h1)
  exact h2

theorem noHT2_pyStrip (l : List Char) (h : noHT2 l) : noHT2 (pyStrip l) := by
  obtain ⟨t1, ht1⟩ := dropWhile_decomp (fun c => isPyWS c) l
  have h1 : noHT2 (lstripWS l) :=
    noHT2_append_right t1 _ (by unfold lstripWS; rw [← ht1]; exact h)
  obtain ⟨t2, ht2⟩ := rstripWS_decomp (lstripWS l)
  have h2 : noHT2 (rstripWS (lstripWS l)) :=
    noHT2_append_left _ t2 (by rw [← ht2]; exact h1)
  exact h2

/-! ### Each pass is the identity on its normal form -/

theorem subCR_id : ∀ l : List Char, '\r' ∉ l → subCR l = l
  | [], _ => rfl
  | [c], h => by
    have hc : ¬ (c = '\r') := fun e => h (by simp [e])
    simp [subCR, hc]
  | a :: b :: rest, h => by
    have ha : ¬ (a = '\r') := fun e => h (by simp [e])
    have h2 : '\r' ∉ b :: rest := fun m => h (List.mem_cons_of_mem _ m)
    simp only [subCR]
    rw [if_neg ha, subCR_id (b :: rest) h2]

theorem subTrailWS_id : ∀ l : List Char, noHTNL l → subTrailWS l = l
  | [], _ => rfl
  | c :: rest, h => by
    have ih := subTrailWS_id rest (noHTNL_tail h)
    simp only [subTrailWS, ih]
    rw [if_neg]
    rintro ⟨hHT, hhd⟩
    cases rest with
    | nil => simp at hhd
    | cons d t =>
      simp only [List.head?_cons, Option.some.injEq] at hhd
      exact h.1 ⟨hHT, hhd⟩

theorem subNL3_id : ∀ l : List Char, noNL3 l → subNL3 l = l
  | [], _ => rfl
  | c :: rest, h => by
    have ih := subNL3_id rest (noNL3_tail h)
    simp only [subNL3, ih]
    rw [if_neg]
    rintro ⟨hc, h1, h2⟩
    cases rest with
    | nil => simp at h1
    | cons d t =>
      simp only [List.head?_cons, Option.some.injEq] at h1
      cases t with
      | nil => simp at h2
      | cons e t2 =>
        simp only [List.tail_cons, List.head?_cons, Option.some.injEq] at h2
        exact h.1 ⟨hc, h1, h2⟩

theorem subHT2_id : ∀ l : List Char, noHT2 l → subHT2 l = l
  | [], _ => rfl
  | c :: rest, h => by
    have ih := subHT2_id rest (noHT2_tail h)
    simp only [subHT2, ih]
    rw [if_neg]
    rintro ⟨hc, d, hd, hdHT⟩
    cases rest with
    | nil => simp at hd
    | cons d' t =>
      simp only [List.head?_cons, Option.some.injEq] at hd
      exact h.1 ⟨hc, hd ▸ hdHT⟩

theorem dropWhile_id_of_head {α : Type} (p : α → Bool) (l : List α)
    (h : ∀ c, l.head? = some c → ¬ p c) : l.dropWhile p = l := by
  cases l with
  | nil => rfl
  | cons a t =>
    have ha := h a (by simp)
    simp [List.dropWhile_cons, ha]

theorem pyStrip_id (l : List Char) (h : strippedEnds l) : pyStrip l = l := by
  have hl : lstripWS l = l := dropWhile_id_of_head _ l h.1
  have hr : rstripWS l = l := by
    unfold rstripWS
    rw [dropWhile_id_of_head _ l.reverse h.2, List.reverse_reverse]
  rw [pyStrip, hl, hr]

/-! ### Idempotence -/

/-- The output of `clean_text` satisfies all five normal-form predicates. -/
theorem cleanTextL_normal (l : List Char) :
    '\r' ∉ cleanTextL l ∧ noHTNL (cleanTextL l) ∧ noNL3 (cleanTextL l) ∧
    noHT2 (cleanTextL l) ∧ strippedEnds (cleanTextL l) := by
  unfold cleanTextL
  refine ⟨?_, ?_, ?_, ?_, pyStrip_strippedEnds _⟩
  · intro hmem
    have h4 := mem_pyStrip _ _ hmem
    rcases mem_subHT2 _ _ h4 with h3 | h3
    · exact subCR_noCR l (mem_subTrailWS _ _ (mem_subNL3 _ _ h3))
    · exact absurd h3 (by decide)
  · exact noHTNL_pyStrip _ (subHT2_noHTNL _ (subNL3_noHTNL _ (subTrailWS_noHTNL _)))
  · exact noNL3_pyStrip _ (subHT2_noNL3 _ (subNL3_noNL3 _))
  · exact noHT2_pyStrip _ (subHT2_noHT2 _)

/-- `clean_text` is the identity on its normal forms. -/
theorem cleanTextL_fixed (l : List Char)
    (h1 : '\r' ∉ l) (h2 : noHTNL l) (h3 : noNL3 l) (h4 : noHT2 l)
    (h5 : strippedEnds l) : cleanTextL l = l := by
  unfold cleanTextL
  rw [subCR_id l h1, subTrailWS_id l h2, subNL3_id l h3, subHT2_id l h4, pyStrip_id l h5]

/-- **C3**: the Text Normalizer `clean_text` is idempotent: for every input
string `s`, `clean_text (clean_text s) = clean_text s`. -/
theorem clean_text_idempotent : ∀ s : String, clean_text (clean_text s) = clean_text s := by
  intro s
  obtain ⟨h1, h2, h3, h4, h5⟩ := cleanTextL_normal s.data
  show (⟨cleanTextL (clean_text s).data⟩ : String) = ⟨cleanTextL s.data⟩
  have hd : (clean_text s).data = cleanTextL s.data := rfl
  rw [hd, cleanTextL_fixed _ h1 h2 h3 h4 h5]

/-- **C9**: the Text Normalizer collapses whitespace: newline runs in the
output never exceed 2 (so an input with 5 consecutive newlines yields at
most 2), space/tab runs never exceed 1 (so 3 consecutive spaces yield
exactly 1), `\r\n` and `\r` become `\n`, horizontal whitespace before a
newline is removed, and the result is trimmed of leading and trailing
whitespace. -/
theorem clean_text_collapses :
    (∀ l : List Char, noNL3 (cleanTextL l)) ∧
    (∀ l : List Char, noHT2 (cleanTextL l)) ∧
    (∀ l : List Char, noHTNL (cleanTextL l)) ∧
    (∀ l : List Char, strippedEnds (cleanTextL l)) ∧
    clean_text "a\n\n\n\n\nb" = "a\n\nb" ∧
    clean_text "a   b" = "a b" ∧
    clean_text "a\r\nb\rc" = "a\nb\nc" ∧
    clean_text "a \t\nb" = "a\nb" ∧
    clean_text " \n x\t " = "x" :=
  ⟨fun l => (cleanTextL_normal l).2.2.1, fun l => (cleanTextL_normal l).2.2.2.1,
   fun l => (cleanTextL_normal l).2.1, fun l => (cleanTextL_normal l).2.2.2.2,
   by decide, by decide, by decide, by decide, by decide⟩

/-! ## URL deduplication (both result sources)

`Google100.py` lines 101-109 and `GoogleNews100.py` lines 160-167 run the
same inline loop: a `seen` set plus an output list preserving first
occurrences, then a `[:max_results]` truncation.  The `seen` set is
modelled as a list with membership. -/

def dedupAux (seen : List String) : List String → List String
  | [] => []
  | u :: rest => if u ∈ seen then dedupAux seen rest else u :: dedupAux (u :: seen) rest

/-- The order-preserving deduplication loop (`seen`/`unique_urls`, `seen`/`out`). -/
def dedupURLs (urls : List String) : List String := dedupAux [] urls

/-- The dedup-then-truncate tail of both result sources:
`unique_urls[:max_results]` resp. `out[:max_results]`. -/
def dedupTruncate (urls : List String) (maxResults : Nat) : List String :=
  (dedupURLs urls).take maxResults

theorem dedupAux_sublist : ∀ (seen l : List String), (dedupAux seen l).Sublist l
  | _, [] => List.Sublist.refl []
  | seen, u :: rest => by
    simp only [dedupAux]
    split
    · exact (dedupAux_sublist seen rest).cons u
    · exact (dedupAux_sublist (u :: seen) rest).cons₂ u

/-- **C6**: deduplication preserves first-seen order (`["a","b","a","c","b"]`
deduplicates to `["a","b","c"]`, and in general the deduplicated list is a
sublist of the input), and truncation respects the cap: whenever
deduplication leaves 150 elements and the cap is 100, the result is exactly
the first 100 deduplicated elements, in order. -/
theorem dedup_then_truncate_spec :
    dedupURLs ["a", "b", "a", "c", "b"] = ["a", "b", "c"] ∧
    (∀ urls : List String, (dedupURLs urls).Sublist urls) ∧
    (∀ urls : List String, (dedupURLs urls).length = 150 →
      dedupTruncate urls 100 = (dedupURLs urls).take 100 ∧
      (dedupTruncate urls 100).length = 100) := by
  refine ⟨by decide, fun urls => dedupAux_sublist [] urls, fun urls h => ⟨rfl, ?_⟩⟩
  simp [dedupTruncate, List.length_take, h]

/-- 150 pairwise-distinct URL strings, used to exercise the cap. -/
def urls150 : List String :=
  (List.range 150).map (fun n => String.mk [Char.ofNat (48 + n / 16), Char.ofNat (48 + n % 16)])

set_option maxRecDepth 4000 in
theorem dedup_then_truncate_spec_witness :
    (dedupURLs urls150).length = 150 ∧
    (dedupTruncate urls150 100 = (dedupURLs urls150).take 100 ∧
      (dedupTruncate urls150 100).length = 100) :=
  ⟨by decide, dedup_then_truncate_spec.2.2 urls150 (by decide)⟩

/-! ## Result writer (both scripts)

`write_results` opens the output file fresh (`"w"`) and, for each result
triple in order, writes `url.strip() + "\n"` then `content.strip() + "\n\n"`.
The produced file content is therefore the concatenation of one such block
per triple, which the recursion below builds directly. -/

def write_results : List (String × Bool × String) → String
  | [] => ""
  | r :: rest => pyStripS r.1 ++ "\n" ++ pyStripS r.2.2 ++ "\n\n" ++ write_results rest

/-- Modelled from the spec (the repository has no reader): "split on
blank-line-separated blocks" — cut the file content at each `"\n\n"`. -/
def splitOnBlank : List Char → List (List Char)
  | [] => [[]]
  | [c] => [[c]]
  | a :: b :: rest =>
    if a = '\n' ∧ b = '\n' then [] :: splitOnBlank rest
    else
      match splitOnBlank (b :: rest) with
      | blk :: bs => (a :: blk) :: bs
      | [] => [[a]]

/-- Modelled from the spec (the repository has no reader): each non-empty
blank-line-separated block reconstructs a `(url, content)` pair — the first
line is the URL, the remainder is the content. -/
def specParseBlocks (s : String) : List (String × String) :=
  ((splitOnBlank s.data).filter (fun b => !b.isEmpty)).map fun b =>
    (⟨b.takeWhile (fun c => c ≠ '\n')⟩, ⟨(b.dropWhile (fun c => c ≠ '\n')).tail⟩)

/-- **C7**: the Result Writer serializes the ResultSet in order as repeating
blocks (trimmed URL line, trimmed content, blank line), and the claimed
round-trip holds: writing `[("http://a", true, "hello"),
("http://b", false, "[INACCESSIBLE] x")]` produces file content whose
blank-line-separated blocks reconstruct the same two (url, content) pairs
in order. -/
theorem write_results_roundtrip :
    (∀ (r : String × Bool × String) rest,
      write_results (r :: rest) =
        pyStripS r.1 ++ "\n" ++ pyStripS r.2.2 ++ "\n\n" ++ write_results rest) ∧
    specParseBlocks
        (write_results [("http://a", true, "hello"), ("http://b", false, "[INACCESSIBLE] x")]) =
      [("http://a", "hello"), ("http://b", "[INACCESSIBLE] x")] :=
  ⟨fun _ _ => rfl, by decide⟩

/-! ## Google News feed entries and URL resolution (`GoogleNews100.py`)

A feed entry is modelled by the four fields the script reads.  The
`summary` field is HTML scanned with BeautifulSoup for the first
`<a href=...>` anchor; `summaryAnchors = none` models a missing or empty
(falsy) summary, `some hs` a non-empty summary whose anchor `href`s are
`hs` in document order, so `soup.find("a", href=True)` is `hs.head?`. -/

structure FeedSource where
  href : Option String
deriving DecidableEq

structure FeedLink where
  href : Option String
  rel : Option String
deriving DecidableEq

structure FeedEntry where
  source : Option FeedSource
  summaryAnchors : Option (List String)
  links : List FeedLink
  link : Option String
deriving DecidableEq

/-- `extract_publisher_url_from_summary`: first anchor of the summary, kept
only if it starts with `"http"` and is not on `news.google.com`. -/
def extract_publisher_url_from_summary (e : FeedEntry) : Option String :=
  match e.summaryAnchors with
  | none => none
  | some anchors =>
    match anchors.head? with
    | none => none
    | some href =>
      if pyStartswith href "http" ∧ ¬ pyIn "news.google.com" href then some href
      else none

/-- Step 3 of `extract_real_article_url`: the `for l in entry.links` loop
looking for the first `rel="alternate"` HTTP link not on `news.google.com`
(a matching link that is on `news.google.com` is skipped). -/
def step3_alt : List FeedLink → Option String
  | [] => none
  | lnk :: rest =>
    match lnk.href with
    | none => step3_alt rest
    | some href =>
      if lnk.rel = some "alternate" ∧ href ≠ "" ∧ pyStartswith href "http" then
        if ¬ pyIn "news.google.com" href then some href else step3_alt rest
      else step3_alt rest

/-- Step 4 of `extract_real_article_url`: the entry's own `link`, if truthy
and starting with `"http"`; otherwise the function returns `None`. -/
def eru_step4 (e : FeedEntry) : Option String :=
  match e.link with
  | some lk => if lk ≠ "" ∧ pyStartswith lk "http" then some lk else none
  | none => none

/-- Steps 3-4 of `extract_real_article_url`. -/
def eru_step3 (e : FeedEntry) : Option String :=
  match step3_alt e.links with
  | some h => some h
  | none => eru_step4 e

/-- Steps 2-4 of `extract_real_article_url` (`u = extract_publisher_url_from_summary(entry); if u: return u`). -/
def eru_step2 (e : FeedEntry) : Option String :=
  match extract_publisher_url_from_summary e with
  | some u => if u ≠ "" then some u else eru_step3 e
  | none => eru_step3 e

/-- `extract_real_article_url`: ordered fallback
source.href → summary anchor → rel=alternate link → entry.link → `None`. -/
def extract_real_article_url (e : FeedEntry) : Option String :=
  match e.source with
  | some src =>
    match src.href with
    | some href =>
      if href ≠ "" ∧ pyStartswith href "http" then some href else eru_step2 e
    | none => eru_step2 e
  | none => eru_step2 e

/-- The predicate the step-3 loop accepts a link by. -/
def goodAlt (lnk : FeedLink) : Bool :=
  decide (lnk.rel = some "alternate" ∧
    ∃ h, lnk.href = some h ∧ h ≠ "" ∧ pyStartswith h "http" = true ∧
      pyIn "news.google.com" h = false)

theorem step3_alt_skip (lnk : FeedLink) (rest : List FeedLink)
    (h : goodAlt lnk = false) : step3_alt (lnk :: rest) = step3_alt rest := by
  have hp : ¬(lnk.rel = some "alternate" ∧
      ∃ hr, lnk.href = some hr ∧ hr ≠ "" ∧ pyStartswith hr "http" = true ∧
        pyIn "news.google.com" hr = false) := by
    simpa [goodAlt] using h
  simp only [step3_alt]
  cases hh : lnk.href with
  | none => rfl
  | some href =>
    split
    · rfl
    · rename_i href2 heq
      have he : href2 = href := (Option.some.inj heq).symm
      rw [he]
      by_cases hcond : lnk.rel = some "alternate" ∧ href ≠ "" ∧ pyStartswith href "http" = true
      · have hpi : pyIn "news.google.com" href = true := by
          rcases Bool.eq_false_or_eq_true (pyIn "news.google.com" href) with h0 | h0
          · exact h0
          · exact absurd ⟨hcond.1, href, hh, hcond.2.1, hcond.2.2, h0⟩ hp
        rw [if_pos hcond, if_neg (by simp [hpi])]
      · rw [if_neg hcond]

theorem step3_alt_none : ∀ links : List FeedLink,
    links.find? goodAlt = none → step3_alt links = none
  | [], _ => rfl
  | lnk :: rest, h => by
    rw [List.find?_cons] at h
    split at h
    · exact absurd h (by simp)
    · rename_i hga
      rw [step3_alt_skip lnk rest (by simpa using hga)]
      exact step3_alt_none rest h

theorem step3_alt_some : ∀ (links : List FeedLink) (lnk : FeedLink),
    links.find? goodAlt = some lnk → ∀ h, lnk.href = some h → step3_alt links = some h
  | [], lnk, hf, _, _ => by simp at hf
  | l0 :: rest, lnk, hf, h, hh => by
    rw [List.find?_cons] at hf
    split at hf
    · rename_i hga
      have hl : l0 = lnk := by simpa using hf
      subst hl
      have hp : l0.rel = some "alternate" ∧
          ∃ hr, l0.href = some hr ∧ hr ≠ "" ∧ pyStartswith hr "http" = true ∧
            pyIn "news.google.com" hr = false := by
        simpa [goodAlt] using hga
      obtain ⟨hrel, hr, hhr, hne, hsw, hpi⟩ := hp
      have hreq : hr = h := by rw [hh] at hhr; exact (Option.some.inj hhr).symm
      subst hreq
      simp only [step3_alt, hh]
      rw [if_pos ⟨hrel, hne, hsw⟩, if_pos (by simp [hpi])]
    · rename_i hga
      rw [step3_alt_skip l0 rest (by simpa using hga)]
      exact step3_alt_some rest lnk hf h hh

/-- The URL-collection loop of `search_google_news_urls`: append each
resolvable entry's URL (`if u: urls.append(u)`), stopping as soon as
`max_results` URLs — duplicates included — have been gathered. -/
def collectNewsUrls (maxResults : Nat) : List FeedEntry → List String → List String
  | [], urls => urls
  | e :: rest, urls =>
    let urls2 :=
      match extract_real_article_url e with
      | some u => if u ≠ "" then urls ++ [u] else urls
      | none => urls
    if maxResults ≤ urls2.length then urls2
    else collectNewsUrls maxResults rest urls2

/-- `search_google_news_urls(query, max_results)`, given the entries of the
parsed feed for the query: collect, dedup preserving order, truncate. -/
def search_google_news_urls (entries : List FeedEntry) (maxResults : Nat) : List String :=
  dedupTruncate (collectNewsUrls maxResults entries []) maxResults

/-- Step 1 of the URL resolution fails: the entry has no truthy
`source.href` starting with `"http"`. -/
def sourceStepFails (e : FeedEntry) : Prop :=
  ∀ src, e.source = some src → ∀ h, src.href = some h →
    ¬(h ≠ "" ∧ pyStartswith h "http" = true)

theorem eru_source_fail (e : FeedEntry) (hs : sourceStepFails e) :
    extract_real_article_url e = eru_step2 e := by
  unfold extract_real_article_url
  cases hsrc : e.source with
  | none => rfl
  | some src =>
    dsimp only
    cases hh : src.href with
    | none => rfl
    | some href =>
      dsimp only
      rw [if_neg]
      intro hc
      exact hs src hsrc href hh ⟨hc.1, hc.2⟩

/-- **C5**: `extract_real_article_url` follows the ordered fallback:
(1) a well-formed `source.href` wins (in particular for an entry carrying
both a `source.href` and a different summary anchor); (2) otherwise a
truthy summary anchor; (3) otherwise the first acceptable `rel=alternate`
link; (4) otherwise a well-formed `entry.link`; if all four steps fail the
entry resolves to `None` and the collection loop skips it. -/
theorem feed_url_resolution :
    (∀ (e : FeedEntry) (src : FeedSource) (h : String),
      e.source = some src → src.href = some h → h ≠ "" → pyStartswith h "http" = true →
      extract_real_article_url e = some h) ∧
    (∀ (e : FeedEntry) (u : String), sourceStepFails e →
      extract_publisher_url_from_summary e = some u → u ≠ "" →
      extract_real_article_url e = some u) ∧
    (∀ (e : FeedEntry) (lnk : FeedLink) (h : String), sourceStepFails e →
      extract_publisher_url_from_summary e = none →
      e.links.find? goodAlt = some lnk → lnk.href = some h →
      extract_real_article_url e = some h) ∧
    (∀ (e : FeedEntry) (lk : String), sourceStepFails e →
      extract_publisher_url_from_summary e = none →
      e.links.find? goodAlt = none →
      e.link = some lk → lk ≠ "" → pyStartswith lk "http" = true →
      extract_real_article_url e = some lk) ∧
    (∀ e : FeedEntry, sourceStepFails e →
      extract_publisher_url_from_summary e = none →
      e.links.find? goodAlt = none →
      (∀ lk, e.link = some lk → ¬(lk ≠ "" ∧ pyStartswith lk "http" = true)) →
      extract_real_article_url e = none) ∧
    (∀ (e : FeedEntry) (rest : List FeedEntry) (maxResults : Nat) (urls : List String),
      extract_real_article_url e = none → urls.length < maxResults →
      collectNewsUrls maxResults (e :: rest) urls = collectNewsUrls maxResults rest urls) := by
  refine ⟨?_, ?_, ?_, ?_, ?_, ?_⟩
  · intro e src h hsrc hh hne hsw
    unfold extract_real_article_url
    rw [hsrc]
    dsimp only
    rw [hh]
    dsimp only
    rw [if_pos ⟨hne, hsw⟩]
  · intro e u hs hsum hne
    rw [eru_source_fail e hs]
    unfold eru_step2
    rw [hsum]
    dsimp only
    rw [if_pos hne]
  · intro e lnk h hs hsum hfind hh
    rw [eru_source_fail e hs]
    unfold eru_step2
    rw [hsum]
    dsimp only
    unfold eru_step3
    rw [step3_alt_some e.links lnk hfind h hh]
  · intro e lk hs hsum hfind hlk hne hsw
    rw [eru_source_fail e hs]
    unfold eru_step2
    rw [hsum]
    dsimp only
    unfold eru_step3
    rw [step3_alt_none e.links hfind]
    dsimp only
    unfold eru_step4
    rw [hlk]
    dsimp only
    rw [if_pos ⟨hne, hsw⟩]
  · intro e hs hsum hfind hlink
    rw [eru_source_fail e hs]
    unfold eru_step2
    rw [hsum]
    dsimp only
    unfold eru_step3
    rw [step3_alt_none e.links hfind]
    dsimp only
    unfold eru_step4
    cases hlk : e.link with
    | none => rfl
    | some lk =>
      dsimp only
      rw [if_neg (hlink lk hlk)]
  · intro e rest maxResults urls hnone hlt
    conv_lhs => rw [collectNewsUrls]
    rw [hnone]
    dsimp only
    rw [if_neg (by omega)]

def witEntrySrc : FeedEntry :=
  { source := some ⟨some "http://pub.example/a"⟩,
    summaryAnchors := some ["http://other.example/s"],
    links := [], link := none }

def witEntrySum : FeedEntry :=
  { source := none, summaryAnchors := some ["http://sum.example/x"],
    links := [], link := none }

def witEntryAlt : FeedEntry :=
  { source := none, summaryAnchors := none,
    links := [⟨some "http://alt.example/y", some "alternate"⟩], link := none }

def witEntryLink : FeedEntry :=
  { source := none, summaryAnchors := none, links := [],
    link := some "http://self.example/z" }

def witEntryBare : FeedEntry :=
  { source := none, summaryAnchors := none, links := [], link := none }

theorem feed_url_resolution_witness :
    extract_real_article_url witEntrySrc = some "http://pub.example/a" ∧
    extract_real_article_url witEntrySum = some "http://sum.example/x" ∧
    extract_real_article_url witEntryAlt = some "http://alt.example/y" ∧
    extract_real_article_url witEntryLink = some "http://self.example/z" ∧
    extract_real_article_url witEntryBare = none ∧
    collectNewsUrls 1 [witEntryBare] [] = collectNewsUrls 1 [] [] :=
  ⟨feed_url_resolution.1 witEntrySrc ⟨some "http://pub.example/a"⟩ "http://pub.example/a"
      rfl rfl (by decide) (by decide),
   feed_url_resolution.2.1 witEntrySum "http://sum.example/x"
      (fun src hsrc => nomatch hsrc) (by decide) (by decide),
   feed_url_resolution.2.2.1 witEntryAlt ⟨some "http://alt.example/y", some "alternate"⟩
      "http://alt.example/y" (fun src hsrc => nomatch hsrc) (by decide) (by decide) rfl,
   feed_url_resolution.2.2.2.1 witEntryLink "http://self.example/z"
      (fun src hsrc => nomatch hsrc) (by decide) (by decide) rfl (by decide) (by decide),
   feed_url_resolution.2.2.2.2.1 witEntryBare (fun src hsrc => nomatch hsrc)
      (by decide) (by decide) (fun lk hlk => nomatch hlk),
   feed_url_resolution.2.2.2.2.2 witEntryBare [] 1 []
      (feed_url_resolution.2.2.2.2.1 witEntryBare (fun src hsrc => nomatch hsrc)
        (by decide) (by decide) (fun lk hlk => nomatch hlk)) (by decide)⟩

/-! ## Fetching and extraction

`requests.get`, BeautifulSoup, readability and Playwright are external
effects; each pipeline gets a "world" of oracle functions for them, and the
scripts' control flow over the oracle results is embedded directly. -/

/-- Outcome of `requests.get(url, headers=..., timeout=..., allow_redirects=True)`:
a response (status code, `Content-Type` header — `""` when absent, matching
`headers.get("Content-Type", "")` — and body text), or a raised
`requests.exceptions.RequestException` carrying its message. -/
inductive FetchResult
  | success (status : Nat) (contentType : String) (body : String)
  | exn (msg : String)
deriving DecidableEq

/-- `s` begins with the fixed inaccessibility marker `"[INACCESSIBLE]"`. -/
def markerPre (s : String) : Prop := listPre "[INACCESSIBLE]".data s.data = true

theorem listPre_append : ∀ p q r : List Char, listPre p q = true → listPre p (q ++ r) = true
  | [], _, _, _ => rfl
  | a :: as, [], r, h => by simp [listPre] at h
  | a :: as, b :: bs, r, h => by
    simp only [listPre, Bool.and_eq_true, decide_eq_true_eq, List.cons_append] at h ⊢
    exact ⟨h.1, listPre_append as bs r h.2⟩

theorem markerPre_concat (pre tail : String)
    (h : listPre "[INACCESSIBLE]".data pre.data = true) : markerPre (pre ++ tail) := by
  unfold markerPre
  have hd : (pre ++ tail).data = pre.data ++ tail.data := by
    cases pre; cases tail; rfl
  rw [hd]
  exact listPre_append _ _ _ h

namespace News

/-- Oracles for `GoogleNews100.py`: the HTTP fetch per URL, the rendered
HTML (or raised exception) of the Playwright session per URL, the output
(or raised exception) of `Document(html).summary(html_partial=True)`, and
the output (or raised exception) of the BeautifulSoup
`get_text(separator="\n")` after decomposing script/style/noscript. -/
structure World where
  fetch : String → FetchResult
  playwright : String → Except String String
  readability : String → Except String String
  soupText : String → Except String String

/-- `looks_like_cookie_consent_page`: case-insensitive substring match
against the fixed multilingual trigger list. -/
def looks_like_cookie_consent_page (s : String) : Bool :=
  ["before you continue", "we use cookies", "cookies and data", "consent",
   "privacy", "reject all", "accept all", "tout accepter", "tout refuser",
   "j\x27accepte", "accepter", "refuser", "paramètres de confidentialité"].any
    (fun x => pyIn x (lowerStr s))

/-- `is_google_or_consent_url`: Google News / consent URLs to short-circuit. -/
def is_google_or_consent_url (url : String) : Bool :=
  pyIn "news.google.com" (lowerStr url) || pyIn "consent.google" (lowerStr url) ||
  pyIn "accounts.google.com" (lowerStr url) || pyIn "google.com/sorry" (lowerStr url)

/-- `fetch_html_requests`: status then content-type gating, exceptions
recorded. -/
def fetch_html_requests (w : World) (url : String) : Bool × String :=
  match w.fetch url with
  | .exn e => (false, "[INACCESSIBLE] Erreur réseau: " ++ e)
  | .success status ctype body =>
    if 400 ≤ status then (false, "[INACCESSIBLE] HTTP " ++ toString status)
    else if pyIn "text/html" ctype = false ∧ pyIn "application/xhtml+xml" ctype = false then
      (false, "[INACCESSIBLE] Content-Type non HTML: " ++ ctype)
    else (true, body)

/-- `fetch_html_playwright`: the whole browser session is one `try`; any
exception yields the Playwright marker, otherwise the rendered HTML. -/
def fetch_html_playwright (w : World) (url : String) : Bool × String :=
  match w.playwright url with
  | .ok html => (true, html)
  | .error e => (false, "[INACCESSIBLE] Playwright: " ++ e)

/-- `extract_article_html_with_readability`. -/
def extract_article_html_with_readability (w : World) (html : String) : Except String String :=
  w.readability html

/-- `html_to_text`: BeautifulSoup text extraction then `clean_text`;
exceptions propagate to the caller's `try`. -/
def html_to_text (w : World) (html : String) : Except String String :=
  match w.soupText html with
  | .ok t => .ok (clean_text t)
  | .error e => .error e

/-- `extract_text_from_html`: readability then text extraction inside one
`try`, empty text reported inaccessible. -/
def extract_text_from_html (w : World) (html : String) : Bool × String :=
  match extract_article_html_with_readability w html with
  | .error e => (false, "[INACCESSIBLE] Erreur extraction: " ++ e)
  | .ok article =>
    match html_to_text w article with
    | .error e => (false, "[INACCESSIBLE] Erreur extraction: " ++ e)
    | .ok text =>
      if text = "" then (false, "[INACCESSIBLE] Contenu vide ou non extractible")
      else (true, text)

/-- `extract_page_text` of `GoogleNews100.py`: fast fetch, consent-wall
detection, Playwright fallback, extraction. -/
def extract_page_text (w : World) (url : String) : Bool × String :=
  let r := fetch_html_requests w url
  if r.1 = false then (false, r.2)
  else if looks_like_cookie_consent_page r.2 = true then
    let p := fetch_html_playwright w url
    if p.1 = false then (false, p.2)
    else extract_text_from_html w p.2
  else extract_text_from_html w r.2

/-- The per-URL loop of `main`: skip URLs already done, short-circuit
Google/consent URLs, otherwise fetch and extract; returns the appended
results and the updated `already_done` set. -/
def processUrls (w : World) : List String → List String →
    List (String × Bool × String) × List String
  | [], seen => ([], seen)
  | url :: rest, seen =>
    if url ∈ seen then processUrls w rest seen
    else
      if is_google_or_consent_url url = true then
        let r := processUrls w rest (url :: seen)
        ((url, false, "[INACCESSIBLE] Lien Google/consentement ignoré") :: r.1, r.2)
      else
        let pr := extract_page_text w url
        let r := processUrls w rest (url :: seen)
        ((url, pr.1, pr.2) :: r.1, r.2)

/-- The keyword loop of `main`; `feedOf` gives the parsed feed entries per
keyword. -/
def runKeywords (w : World) (feedOf : String → List FeedEntry) (maxResults : Nat) :
    List String → List String → List (String × Bool × String)
  | [], _ => []
  | kw :: rest, seen =>
    let urls := search_google_news_urls (feedOf kw) maxResults
    let r := processUrls w urls seen
    r.1 ++ runKeywords w feedOf maxResults rest r.2

/-- `main` of `GoogleNews100.py`: the accumulated ResultSet. -/
def mainResults (w : World) (feedOf : String → List FeedEntry) (keywords : List String)
    (maxResults : Nat) : List (String × Bool × String) :=
  runKeywords w feedOf maxResults keywords []

end News

namespace Google100

/-- Oracles for `Google100.py`: the HTTP fetch per URL and the text of
`BeautifulSoup(html, "html.parser")` after decomposing
script/style/noscript/header/footer/nav/aside, via `get_text(separator="\n")`
(a total function: the `html.parser` backend does not raise on string
input, and the script's `except` clause only catches `RequestException`). -/
structure World where
  fetch : String → FetchResult
  soupText : String → String

/-- `extract_page_text` of `Google100.py`: fetch, status and content-type
gating, tag stripping, `clean_text`, empty-content check. -/
def extract_page_text (w : World) (url : String) : Bool × String :=
  match w.fetch url with
  | .exn e => (false, "[INACCESSIBLE] Erreur réseau: " ++ e)
  | .success status ctype body =>
    if 400 ≤ status then (false, "[INACCESSIBLE] HTTP " ++ toString status)
    else if pyIn "text/html" ctype = false ∧ pyIn "application/xhtml+xml" ctype = false then
      (false, "[INACCESSIBLE] Content-Type non HTML: " ++ ctype)
    else
      let text := clean_text (w.soupText body)
      if text = "" then (false, "[INACCESSIBLE] Contenu vide ou non extractible")
      else (true, text)

/-- One Custom Search API response: HTTP status and, for the parsed JSON,
`data.get("items", [])` where each item carries `it.get("link")` (`none`
models a missing link, `some ""` a falsy empty one). -/
structure ApiResp where
  status : Nat
  items : List (Option String)

/-- The inner `for it in items` loop: append each truthy link, breaking
once `max_results` URLs (duplicates included) are collected. -/
def addLinks (maxResults : Nat) : List (Option String) → List String → List String
  | [], urls => urls
  | it :: rest, urls =>
    match it with
    | none => addLinks maxResults rest urls
    | some link =>
      if link = "" then addLinks maxResults rest urls
      else
        let urls2 := urls ++ [link]
        if maxResults ≤ urls2.length then urls2 else addLinks maxResults rest urls2

/-- Outcome of the paginated search: the `RuntimeError` raised on a
non-200 API status (with the offending `start`), or the collected URLs. -/
inductive SearchOutcome
  | apiError (status : Nat) (atStart : Nat)
  | ok (urls : List String)
deriving DecidableEq

/-- The `while len(urls) < max_results` pagination loop of
`google_custom_search`, with `resp` giving the API response per `start`
offset.  Also returns the list of `start` offsets actually requested.
Termination is by the `start > 91` hard cap. -/
def searchLoop (resp : Nat → ApiResp) (maxResults : Nat) (urls : List String) (start : Nat) :
    SearchOutcome × List Nat :=
  if urls.length < maxResults then
    if (resp start).status ≠ 200 then (.apiError (resp start).status start, [start])
    else if (resp start).items = [] then (.ok urls, [start])
    else
      let urls2 := addLinks maxResults (resp start).items urls
      if h91 : 91 < start + 10 then (.ok urls2, [start])
      else
        let r := searchLoop resp maxResults urls2 (start + 10)
        (r.1, start :: r.2)
  else (.ok urls, [])
termination_by 92 - start
decreasing_by omega

/-- `google_custom_search(query, api_key, cx, max_results)`, given the API
behaviour for the query: paginate from `start = 1`, then dedup preserving
order and truncate.  The second component lists the requested offsets. -/
def google_custom_search (resp : Nat → ApiResp) (maxResults : Nat) :
    SearchOutcome × List Nat :=
  let r := searchLoop resp maxResults [] 1
  match r.1 with
  | .apiError c s => (.apiError c s, r.2)
  | .ok urls => (.ok (dedupTruncate urls maxResults), r.2)

/-- The per-URL loop of `main`: skip URLs already done, otherwise fetch and
extract; returns the appended results and the updated `already_done` set. -/
def processUrls (w : World) : List String → List String →
    List (String × Bool × String) × List String
  | [], seen => ([], seen)
  | url :: rest, seen =>
    if url ∈ seen then processUrls w rest seen
    else
      let pr := extract_page_text w url
      let r := processUrls w rest (url :: seen)
      ((url, pr.1, pr.2) :: r.1, r.2)

/-- The keyword loop of `main`; `resp` gives the API behaviour per keyword.
A non-200 API response aborts the whole run (`RuntimeError` is never
caught), modelled by `Except.error`. -/
def runKeywords (w : World) (resp : String → Nat → ApiResp) (maxResults : Nat) :
    List String → List String → Except (Nat × Nat) (List (String × Bool × String))
  | [], _ => .ok []
  | kw :: rest, seen =>
    match (google_custom_search (resp kw) maxResults).1 with
    | .apiError c s => .error (c, s)
    | .ok urls =>
      let r := processUrls w urls seen
      match runKeywords w resp maxResults rest r.2 with
      | .error x => .error x
      | .ok res => .ok (r.1 ++ res)

end Google100

namespace News

theorem fetch_html_requests_marker (w : World) (url : String)
    (h : (fetch_html_requests w url).1 = false) : markerPre (fetch_html_requests w url).2 := by
  unfold fetch_html_requests at h ⊢
  cases hf : w.fetch url with
  | exn e => exact markerPre_concat "[INACCESSIBLE] Erreur réseau: " e (by decide)
  | success st ct body =>
    rw [hf] at h
    dsimp only at h ⊢
    split
    · exact markerPre_concat "[INACCESSIBLE] HTTP " (toString st) (by decide)
    · split
      · exact markerPre_concat "[INACCESSIBLE] Content-Type non HTML: " ct (by decide)
      · rename_i h1 h2
        rw [if_neg h1, if_neg h2] at h
        exact (nomatch h)

theorem fetch_html_playwright_marker (w : World) (url : String)
    (h : (fetch_html_playwright w url).1 = false) :
    markerPre (fetch_html_playwright w url).2 := by
  unfold fetch_html_playwright at h ⊢
  cases hp : w.playwright url with
  | ok html => rw [hp] at h; exact (nomatch h)
  | error e => exact markerPre_concat "[INACCESSIBLE] Playwright: " e (by decide)

theorem extract_text_from_html_ok (w : World) (html : String) :
    ((extract_text_from_html w html).1 = true → (extract_text_from_html w html).2 ≠ "") ∧
    ((extract_text_from_html w html).1 = false → markerPre (extract_text_from_html w html).2) := by
  unfold extract_text_from_html
  cases hR : extract_article_html_with_readability w html with
  | error e =>
    exact ⟨fun ht => (nomatch ht),
      fun _ => markerPre_concat "[INACCESSIBLE] Erreur extraction: " e (by decide)⟩
  | ok article =>
    dsimp only
    cases hT : html_to_text w article with
    | error e =>
      exact ⟨fun ht => (nomatch ht),
        fun _ => markerPre_concat "[INACCESSIBLE] Erreur extraction: " e (by decide)⟩
    | ok text =>
      dsimp only
      split
      · exact ⟨fun ht => (nomatch ht), fun _ => by unfold markerPre; decide⟩
      · rename_i hne
        exact ⟨fun _ => hne, fun hf => (nomatch hf)⟩

theorem extract_page_text_spec (w : World) (url : String) :
    ((extract_page_text w url).1 = true → (extract_page_text w url).2 ≠ "") ∧
    ((extract_page_text w url).1 = false → markerPre (extract_page_text w url).2) := by
  unfold extract_page_text
  dsimp only
  split
  · rename_i h1
    exact ⟨fun ht => (nomatch ht), fun _ => fetch_html_requests_marker w url h1⟩
  · split
    · split
      · rename_i hp
        exact ⟨fun ht => (nomatch ht), fun _ => fetch_html_playwright_marker w url hp⟩
      · exact extract_text_from_html_ok w (fetch_html_playwright w url).2
    · exact extract_text_from_html_ok w (fetch_html_requests w url).2

theorem processUrls_mem (w : World) : ∀ (urls seen : List String) (r : String × Bool × String),
    r ∈ (processUrls w urls seen).1 →
    (r.2.1 = true → r.2.2 ≠ "") ∧ (r.2.1 = false → markerPre r.2.2)
  | [], seen, r, h => by simp [processUrls] at h
  | url :: rest, seen, r, h => by
    simp only [processUrls] at h
    split at h
    · exact processUrls_mem w rest seen r h
    · split at h
      · rcases List.mem_cons.mp h with rfl | h
        · exact ⟨fun ht => (nomatch ht), fun _ =>
            (by unfold markerPre; decide :
              markerPre "[INACCESSIBLE] Lien Google/consentement ignoré")⟩
        · exact processUrls_mem w rest (url :: seen) r h
      · rcases List.mem_cons.mp h with rfl | h
        · exact extract_page_text_spec w url
        · exact processUrls_mem w rest (url :: seen) r h

theorem runKeywords_mem (w : World) (feedOf : String → List FeedEntry) (maxResults : Nat) :
    ∀ (kws seen : List String) (r : String × Bool × String),
    r ∈ runKeywords w feedOf maxResults kws seen →
    (r.2.1 = true → r.2.2 ≠ "") ∧ (r.2.1 = false → markerPre r.2.2)
  | [], _, r, h => by simp [runKeywords] at h
  | kw :: rest, seen, r, h => by
    simp only [runKeywords] at h
    rcases List.mem_append.mp h with h | h
    · exact processUrls_mem w _ _ r h
    · exact runKeywords_mem w feedOf maxResults rest _ r h

end News

namespace Google100

theorem extract_page_text_spec_g100 (w : World) (url : String) :
    ((extract_page_text w url).1 = true → (extract_page_text w url).2 ≠ "") ∧
    ((extract_page_text w url).1 = false → markerPre (extract_page_text w url).2) := by
  unfold extract_page_text
  cases hf : w.fetch url with
  | exn e =>
    exact ⟨fun ht => (nomatch ht),
      fun _ => markerPre_concat "[INACCESSIBLE] Erreur réseau: " e (by decide)⟩
  | success st ct body =>
    dsimp only
    split
    · exact ⟨fun ht => (nomatch ht),
        fun _ => markerPre_concat "[INACCESSIBLE] HTTP " (toString st) (by decide)⟩
    · split
      · exact ⟨fun ht => (nomatch ht),
          fun _ => markerPre_concat "[INACCESSIBLE] Content-Type non HTML: " ct (by decide)⟩
      · split
        · exact ⟨fun ht => (nomatch ht), fun _ => by unfold markerPre; decide⟩
        · rename_i hne
          exact ⟨fun _ => hne, fun hf => (nomatch hf)⟩

theorem processUrls_mem_g100 (w : World) : ∀ (urls seen : List String) (r : String × Bool × String),
    r ∈ (processUrls w urls seen).1 →
    (r.2.1 = true → r.2.2 ≠ "") ∧ (r.2.1 = false → markerPre r.2.2)
  | [], seen, r, h => by simp [processUrls] at h
  | url :: rest, seen, r, h => by
    simp only [processUrls] at h
    split at h
    · exact processUrls_mem_g100 w rest seen r h
    · rcases List.mem_cons.mp h with rfl | h
      · exact extract_page_text_spec_g100 w url
      · exact processUrls_mem_g100 w rest (url :: seen) r h

theorem runKeywords_ok_mem (w : World) (resp : String → Nat → ApiResp) (maxResults : Nat) :
    ∀ (kws seen : List String) (res : List (String × Bool × String))
      (r : String × Bool × String),
    runKeywords w resp maxResults kws seen = .ok res → r ∈ res →
    (r.2.1 = true → r.2.2 ≠ "") ∧ (r.2.1 = false → markerPre r.2.2)
  | [], seen, res, r, he, hm => by
    simp only [runKeywords] at he
    cases he
    simp at hm
  | kw :: rest, seen, res, r, he, hm => by
    simp only [runKeywords] at he
    split at he
    · exact (nomatch he)
    · split at he
      · exact (nomatch he)
      · rename_i urls hurls res2 hres2
        cases he
        rcases List.mem_append.mp hm with h | h
        · exact processUrls_mem_g100 w _ _ r h
        · exact runKeywords_ok_mem w resp maxResults rest _ res2 r hres2 h

end Google100

/-- **C1**: every PageResult appended to the ResultSet — by either
pipeline's `extract_page_text` or by the news orchestrator's
aggregator short-circuit — has non-empty `content` when `ok = true`, and
`content` beginning with the fixed marker `"[INACCESSIBLE]"` when
`ok = false`. -/
theorem pageResult_invariant :
    (∀ (w : News.World) (feedOf : String → List FeedEntry) (kws : List String) (maxR : Nat)
      (r : String × Bool × String), r ∈ News.mainResults w feedOf kws maxR →
      (r.2.1 = true → r.2.2 ≠ "") ∧ (r.2.1 = false → markerPre r.2.2)) ∧
    (∀ (w : Google100.World) (resp : String → Nat → Google100.ApiResp) (kws : List String)
      (maxR : Nat) (res : List (String × Bool × String)) (r : String × Bool × String),
      Google100.runKeywords w resp maxR kws [] = .ok res → r ∈ res →
      (r.2.1 = true → r.2.2 ≠ "") ∧ (r.2.1 = false → markerPre r.2.2)) :=
  ⟨fun w feedOf kws maxR r h => News.runKeywords_mem w feedOf maxR kws [] r h,
   fun w resp kws maxR res r he hm =>
     Google100.runKeywords_ok_mem w resp maxR kws [] res r he hm⟩

def c1Entry : FeedEntry :=
  { source := some ⟨some "http://x.example/p"⟩, summaryAnchors := none,
    links := [], link := none }

def c1NewsWorld : News.World :=
  { fetch := fun _ => .exn "boom", playwright := fun _ => .error "pw",
    readability := fun _ => .error "rd", soupText := fun _ => .error "st" }

def c1G100World : Google100.World :=
  { fetch := fun _ => .success 200 "text/html" "hello", soupText := fun b => b }

def c1Resp : String → Nat → Google100.ApiResp :=
  fun _ _ => ⟨200, [some "http://g.example/q"]⟩

theorem c1SearchEq :
    Google100.google_custom_search (c1Resp "k") 1 = (.ok ["http://g.example/q"], [1]) := by
  simp [Google100.google_custom_search, Google100.searchLoop, Google100.addLinks,
    c1Resp, dedupTruncate, dedupURLs, dedupAux]

theorem c1RunEq :
    Google100.runKeywords c1G100World c1Resp 1 ["k"] [] =
      .ok [("http://g.example/q", true, "hello")] := by
  simp only [Google100.runKeywords, c1SearchEq]
  congr 1

theorem pageResult_invariant_witness :
    ((("http://x.example/p", false, "[INACCESSIBLE] Erreur réseau: boom")
        : String × Bool × String).2.1 = false →
      markerPre ("http://x.example/p", false,
        "[INACCESSIBLE] Erreur réseau: boom").2.2) ∧
    ((("http://g.example/q", true, "hello") : String × Bool × String).2.1 = true →
      ("http://g.example/q", true, "hello").2.2 ≠ "") :=
  ⟨(pageResult_invariant.1 c1NewsWorld (fun _ => [c1Entry]) ["k"] 10 _ (by decide)).2,
   (pageResult_invariant.2 c1G100World c1Resp ["k"] 1
      [("http://g.example/q", true, "hello")] _ c1RunEq (by decide)).1⟩

namespace Google100

/-- The offsets requested from `start = 1 + 10 * k` form an initial run of
`1 + 10 * k, 1 + 10 * (k + 1), …` of length at most `10 - k`. -/
theorem searchLoop_reqs (resp : Nat → ApiResp) (maxResults : Nat) :
    ∀ m k : Nat, k + m = 9 → ∀ urls : List String,
      ∃ n, n ≤ 10 - k ∧
        (searchLoop resp maxResults urls (1 + 10 * k)).2 =
          (List.range n).map (fun i => 1 + 10 * (k + i)) := by
  intro m
  induction m with
  | zero =>
    intro k hk urls
    have hk9 : k = 9 := by omega
    subst hk9
    rw [searchLoop]
    split
    · split
      · exact ⟨1, by omega, by simp [List.range_succ]⟩
      · split
        · exact ⟨1, by omega, by simp [List.range_succ]⟩
        · split
          · exact ⟨1, by omega, by simp [List.range_succ]⟩
          · rename_i h91
            omega
    · exact ⟨0, by omega, by simp⟩
  | succ m ih =>
    intro k hk urls
    rw [searchLoop]
    split
    · split
      · exact ⟨1, by omega, by simp [List.range_succ]⟩
      · split
        · exact ⟨1, by omega, by simp [List.range_succ]⟩
        · split
          · exact ⟨1, by omega, by simp [List.range_succ]⟩
          · rename_i h91
            obtain ⟨n', hn', hr⟩ :=
              ih (k + 1) (by omega) (addLinks maxResults (resp (1 + 10 * k)).items urls)
            have hst : 1 + 10 * k + 10 = 1 + 10 * (k + 1) := by ring
            refine ⟨n' + 1, by omega, ?_⟩
            dsimp only
            rw [hst, hr, List.range_succ_eq_map, List.map_cons, List.map_map]
            refine congrArg₂ List.cons (by norm_num) ?_
            apply List.map_congr_left
            intro i _
            simp only [Function.comp_apply]
            omega
    · exact ⟨0, by omega, by simp⟩

end Google100

/-- **C8**: the pagination loop of `google_custom_search` terminates for
every sequence of API responses (the loop function is total): the `start`
offsets requested are `1, 11, 21, …`, stepping by 10 — an initial run of
`(List.range n).map (1 + 10 * ·)` — and at most 10 page requests are issued
per keyword.  (The loop stops on reaching `max_results` URLs, on an empty
items page, or at the `start > 91` hard cap, the cases of
`Google100.searchLoop`.) -/
theorem pagination_requests (resp : Nat → Google100.ApiResp) (maxResults : Nat) :
    ∃ n, n ≤ 10 ∧
      (Google100.google_custom_search resp maxResults).2 =
        (List.range n).map (fun i => 1 + 10 * i) ∧
      (Google100.google_custom_search resp maxResults).2.length ≤ 10 := by
  obtain ⟨n, hn, hr⟩ := Google100.searchLoop_reqs resp maxResults 9 0 (by omega) []
  have h2 : (Google100.google_custom_search resp maxResults).2 =
      (Google100.searchLoop resp maxResults [] 1).2 := by
    unfold Google100.google_custom_search
    dsimp only
    split <;> rfl
  norm_num at hr
  refine ⟨n, by omega, ?_, ?_⟩
  · rw [h2, hr]
  · rw [h2, hr]
    simp
    omega

namespace Google100

/-- The pagination loop ends in `apiError` exactly when one of the offsets
it requested got a non-200 response. -/
theorem searchLoop_error_iff (resp : Nat → ApiResp) (maxResults : Nat) :
    ∀ m k : Nat, k + m = 9 → ∀ urls : List String,
      ((∃ c s, (searchLoop resp maxResults urls (1 + 10 * k)).1 = .apiError c s) ↔
        ∃ s ∈ (searchLoop resp maxResults urls (1 + 10 * k)).2, (resp s).status ≠ 200) := by
  intro m
  induction m with
  | zero =>
    intro k hk urls
    have hk9 : k = 9 := by omega
    subst hk9
    rw [searchLoop]
    split
    · split
      · rename_i hs
        dsimp only
        exact ⟨fun _ => ⟨1 + 10 * 9, by simp, hs⟩,
          fun _ => ⟨(resp (1 + 10 * 9)).status, 1 + 10 * 9, rfl⟩⟩
      · rename_i hs
        split
        · dsimp only
          constructor
          · rintro ⟨c, s, h⟩
            exact (nomatch h)
          · rintro ⟨s, hm, hne⟩
            simp at hm
            subst hm
            exact absurd hne hs
        · split
          · dsimp only
            constructor
            · rintro ⟨c, s, h⟩
              exact (nomatch h)
            · rintro ⟨s, hm, hne⟩
              simp at hm
              subst hm
              exact absurd hne hs
          · rename_i h91
            omega
    · dsimp only
      constructor
      · rintro ⟨c, s, h⟩
        exact (nomatch h)
      · rintro ⟨s, hm, hne⟩
        simp at hm
  | succ m ih =>
    intro k hk urls
    rw [searchLoop]
    split
    · split
      · rename_i hs
        dsimp only
        exact ⟨fun _ => ⟨1 + 10 * k, by simp, hs⟩,
          fun _ => ⟨(resp (1 + 10 * k)).status, 1 + 10 * k, rfl⟩⟩
      · rename_i hs
        split
        · dsimp only
          constructor
          · rintro ⟨c, s, h⟩
            exact (nomatch h)
          · rintro ⟨s, hm, hne⟩
            simp at hm
            subst hm
            exact absurd hne hs
        · split
          · dsimp only
            constructor
            · rintro ⟨c, s, h⟩
              exact (nomatch h)
            · rintro ⟨s, hm, hne⟩
              simp at hm
              subst hm
              exact absurd hne hs
          · rename_i h91
            have hst : 1 + 10 * k + 10 = 1 + 10 * (k + 1) := by ring
            dsimp only
            rw [hst]
            have hiff := ih (k + 1) (by omega)
              (addLinks maxResults (resp (1 + 10 * k)).items urls)
            constructor
            · rintro ⟨c, s, h⟩
              obtain ⟨s', hm, hne⟩ := hiff.mp ⟨c, s, h⟩
              exact ⟨s', List.mem_cons_of_mem _ hm, hne⟩
            · rintro ⟨s, hm, hne⟩
              rcases List.mem_cons.mp hm with rfl | hm2
              · exact absurd hne hs
              · exact hiff.mpr ⟨s, hm2, hne⟩
    · dsimp only
      constructor
      · rintro ⟨c, s, h⟩
        exact (nomatch h)
      · rintro ⟨s, hm, hne⟩
        simp at hm

theorem google_custom_search_error_iff (resp : Nat → ApiResp) (maxResults : Nat) :
    (∃ c s, (google_custom_search resp maxResults).1 = .apiError c s) ↔
      ∃ s ∈ (google_custom_search resp maxResults).2, (resp s).status ≠ 200 := by
  have h := searchLoop_error_iff resp maxResults 9 0 (by omega) []
  norm_num at h
  unfold google_custom_search
  dsimp only
  split
  · rename_i c s heq
    dsimp only
    exact ⟨fun _ => h.mp ⟨c, s, heq⟩, fun _ => ⟨c, s, rfl⟩⟩
  · rename_i urls heq
    dsimp only
    constructor
    · rintro ⟨c, s, hcs⟩
      exact (nomatch hcs)
    · rintro hrhs
      obtain ⟨c, s, hcs⟩ := h.mpr hrhs
      rw [heq] at hcs
      exact (nomatch hcs)

theorem runKeywords_abort (w : World) (resp : String → Nat → ApiResp) (maxR : Nat)
    (kw : String) (rest seen : List String) (c s : Nat)
    (h : (google_custom_search (resp kw) maxR).1 = .apiError c s) :
    runKeywords w resp maxR (kw :: rest) seen = .error (c, s) := by
  simp only [runKeywords, h]

theorem processUrls_cons_g100 (w : World) (url : String) (rest seen : List String)
    (h : url ∉ seen) :
    ∃ b c, processUrls w (url :: rest) seen =
        ((url, b, c) :: (processUrls w rest (url :: seen)).1,
          (processUrls w rest (url :: seen)).2) ∧
      (b = false → markerPre c) := by
  simp only [processUrls]
  rw [if_neg h]
  exact ⟨(extract_page_text w url).1, (extract_page_text w url).2, rfl,
    (extract_page_text_spec_g100 w url).2⟩

end Google100

namespace News

theorem processUrls_cons (w : World) (url : String) (rest seen : List String)
    (h : url ∉ seen) :
    ∃ b c, processUrls w (url :: rest) seen =
        ((url, b, c) :: (processUrls w rest (url :: seen)).1,
          (processUrls w rest (url :: seen)).2) ∧
      (b = false → markerPre c) := by
  simp only [processUrls]
  rw [if_neg h]
  split
  · exact ⟨false, "[INACCESSIBLE] Lien Google/consentement ignoré", rfl,
      fun _ => by unfold markerPre; decide⟩
  · exact ⟨(extract_page_text w url).1, (extract_page_text w url).2, rfl,
      (extract_page_text_spec w url).2⟩

end News

/-- **C2**: the search Result Source aborts the whole run (the
`RuntimeError` propagates through `main`) if and only if some requested
API page responds with a non-200 status; every per-URL failure is recorded
as `(url, false, "[INACCESSIBLE] …")` without raising, and processing of
the remaining URLs and keywords continues (the loop recursion proceeds on
the tail regardless of the head's outcome). -/
theorem error_handling_split :
    (∀ (resp : Nat → Google100.ApiResp) (maxR : Nat),
      (∃ c s, (Google100.google_custom_search resp maxR).1 = .apiError c s) ↔
        ∃ s ∈ (Google100.google_custom_search resp maxR).2, (resp s).status ≠ 200) ∧
    (∀ (w : Google100.World) (resp : String → Nat → Google100.ApiResp) (maxR : Nat)
      (kw : String) (rest seen : List String) (c s : Nat),
      (Google100.google_custom_search (resp kw) maxR).1 = .apiError c s →
      Google100.runKeywords w resp maxR (kw :: rest) seen = .error (c, s)) ∧
    (∀ (w : News.World) (url : String) (rest seen : List String), url ∉ seen →
      ∃ b c, News.processUrls w (url :: rest) seen =
          ((url, b, c) :: (News.processUrls w rest (url :: seen)).1,
            (News.processUrls w rest (url :: seen)).2) ∧
        (b = false → markerPre c)) ∧
    (∀ (w : Google100.World) (url : String) (rest seen : List String), url ∉ seen →
      ∃ b c, Google100.processUrls w (url :: rest) seen =
          ((url, b, c) :: (Google100.processUrls w rest (url :: seen)).1,
            (Google100.processUrls w rest (url :: seen)).2) ∧
        (b = false → markerPre c)) :=
  ⟨Google100.google_custom_search_error_iff,
   Google100.runKeywords_abort,
   News.processUrls_cons,
   Google100.processUrls_cons_g100⟩

def c2ErrResp : String → Nat → Google100.ApiResp := fun _ _ => ⟨500, []⟩

theorem c2SearchErrEq :
    (Google100.google_custom_search (c2ErrResp "k") 5).1 = .apiError 500 1 := by
  simp [Google100.google_custom_search, Google100.searchLoop, c2ErrResp]

theorem error_handling_split_witness :
    Google100.runKeywords c1G100World c2ErrResp 5 ["k"] [] = .error (500, 1) ∧
    (∃ b c, News.processUrls c1NewsWorld ["http://a"] [] =
        ((("http://a" : String), b, c) :: (News.processUrls c1NewsWorld [] ["http://a"]).1,
          (News.processUrls c1NewsWorld [] ["http://a"]).2) ∧
      (b = false → markerPre c)) ∧
    (∃ b c, Google100.processUrls c1G100World ["http://a"] [] =
        ((("http://a" : String), b, c) :: (Google100.processUrls c1G100World [] ["http://a"]).1,
          (Google100.processUrls c1G100World [] ["http://a"]).2) ∧
      (b = false → markerPre c)) :=
  ⟨error_handling_split.2.1 c1G100World c2ErrResp 5 "k" [] [] 500 1 c2SearchErrEq,
   error_handling_split.2.2.1 c1NewsWorld "http://a" [] [] (by decide),
   error_handling_split.2.2.2 c1G100World "http://a" [] [] (by decide)⟩

/-- **C4**: the Content Fetcher classifies by status and content type: a
404 response yields `ok = false` with a reason containing `"404"`; an
`application/pdf` response yields `ok = false` with a reason naming that
content type; a 200 `text/html` response with non-empty body yields
`ok = true` with non-empty content.  The same status/content-type gate sits
inline in `Google100.extract_page_text` (its 404 and pdf cases included
here). -/
theorem fetcher_classification :
    (∀ (w : News.World) (url ct body : String), w.fetch url = .success 404 ct body →
      News.fetch_html_requests w url = (false, "[INACCESSIBLE] HTTP " ++ toString 404) ∧
      pyIn "404" (News.fetch_html_requests w url).2 = true) ∧
    (∀ (w : News.World) (url body : String) (st : Nat), st < 400 →
      w.fetch url = .success st "application/pdf" body →
      News.fetch_html_requests w url =
        (false, "[INACCESSIBLE] Content-Type non HTML: application/pdf") ∧
      pyIn "application/pdf" (News.fetch_html_requests w url).2 = true) ∧
    (∀ (w : News.World) (url body : String), body ≠ "" →
      w.fetch url = .success 200 "text/html" body →
      News.fetch_html_requests w url = (true, body) ∧
      (News.fetch_html_requests w url).2 ≠ "") ∧
    (∀ (w : Google100.World) (url ct body : String), w.fetch url = .success 404 ct body →
      Google100.extract_page_text w url = (false, "[INACCESSIBLE] HTTP " ++ toString 404) ∧
      pyIn "404" (Google100.extract_page_text w url).2 = true) ∧
    (∀ (w : Google100.World) (url body : String) (st : Nat), st < 400 →
      w.fetch url = .success st "application/pdf" body →
      Google100.extract_page_text w url =
        (false, "[INACCESSIBLE] Content-Type non HTML: application/pdf") ∧
      pyIn "application/pdf" (Google100.extract_page_text w url).2 = true) := by
  refine ⟨?_, ?_, ?_, ?_, ?_⟩
  · intro w url ct body h
    have he : News.fetch_html_requests w url =
        (false, "[INACCESSIBLE] HTTP " ++ toString 404) := by
      unfold News.fetch_html_requests
      rw [h]
      dsimp only
      rw [if_pos (by norm_num)]
    exact ⟨he, by rw [he]; decide⟩
  · intro w url body st hlt h
    have he : News.fetch_html_requests w url =
        (false, "[INACCESSIBLE] Content-Type non HTML: application/pdf") := by
      unfold News.fetch_html_requests
      rw [h]
      dsimp only
      rw [if_neg (by omega), if_pos (by decide)]
      decide
    exact ⟨he, by rw [he]; decide⟩
  · intro w url body hne h
    have he : News.fetch_html_requests w url = (true, body) := by
      unfold News.fetch_html_requests
      rw [h]
      dsimp only
      rw [if_neg (by norm_num), if_neg (by decide)]
    exact ⟨he, by rw [he]; exact hne⟩
  · intro w url ct body h
    have he : Google100.extract_page_text w url =
        (false, "[INACCESSIBLE] HTTP " ++ toString 404) := by
      unfold Google100.extract_page_text
      rw [h]
      dsimp only
      rw [if_pos (by norm_num)]
    exact ⟨he, by rw [he]; decide⟩
  · intro w url body st hlt h
    have he : Google100.extract_page_text w url =
        (false, "[INACCESSIBLE] Content-Type non HTML: application/pdf") := by
      unfold Google100.extract_page_text
      rw [h]
      dsimp only
      rw [if_neg (by omega), if_pos (by decide)]
      decide
    exact ⟨he, by rw [he]; decide⟩

def c4World : News.World :=
  { fetch := fun u =>
      if u = "http://four.example" then .success 404 "text/html" "x"
      else if u = "http://pdf.example" then .success 200 "application/pdf" "x"
      else .success 200 "text/html" "<p>hi</p>",
    playwright := fun _ => .error "pw", readability := fun _ => .error "rd",
    soupText := fun _ => .error "st" }

def c4G100World : Google100.World :=
  { fetch := fun u =>
      if u = "http://four.example" then .success 404 "text/html" "x"
      else if u = "http://pdf.example" then .success 200 "application/pdf" "x"
      else .success 200 "text/html" "<p>hi</p>",
    soupText := fun b => b }

theorem fetcher_classification_witness :
    (News.fetch_html_requests c4World "http://four.example" =
        (false, "[INACCESSIBLE] HTTP " ++ toString 404) ∧
      pyIn "404" (News.fetch_html_requests c4World "http://four.example").2 = true) ∧
    (News.fetch_html_requests c4World "http://pdf.example" =
        (false, "[INACCESSIBLE] Content-Type non HTML: application/pdf") ∧
      pyIn "application/pdf" (News.fetch_html_requests c4World "http://pdf.example").2 = true) ∧
    (News.fetch_html_requests c4World "http://ok.example" = (true, "<p>hi</p>") ∧
      (News.fetch_html_requests c4World "http://ok.example").2 ≠ "") ∧
    (Google100.extract_page_text c4G100World "http://four.example" =
        (false, "[INACCESSIBLE] HTTP " ++ toString 404) ∧
      pyIn "404" (Google100.extract_page_text c4G100World "http://four.example").2 = true) ∧
    (Google100.extract_page_text c4G100World "http://pdf.example" =
        (false, "[INACCESSIBLE] Content-Type non HTML: application/pdf") ∧
      pyIn "application/pdf"
        (Google100.extract_page_text c4G100World "http://pdf.example").2 = true) :=
  ⟨fetcher_classification.1 c4World "http://four.example" "text/html" "x" (by decide),
   fetcher_classification.2.1 c4World "http://pdf.example" "x" 200 (by omega) (by decide),
   fetcher_classification.2.2.1 c4World "http://ok.example" "<p>hi</p>" (by decide) (by decide),
   fetcher_classification.2.2.2.1 c4G100World "http://four.example" "text/html" "x" (by decide),
   fetcher_classification.2.2.2.2 c4G100World "http://pdf.example" "x" 200 (by omega) (by decide)⟩

def c10EntryA : FeedEntry :=
  { source := some ⟨some "http://dup.example/a"⟩, summaryAnchors := none,
    links := [], link := none }

def c10EntryB : FeedEntry :=
  { source := some ⟨some "http://dup.example/b"⟩, summaryAnchors := none,
    links := [], link := none }

def c10Resp : Nat → Google100.ApiResp :=
  fun _ => ⟨200, [some "http://dup.example/a", some "http://dup.example/a",
                  some "http://dup.example/b"]⟩

/-- **C10**: in both result sources the cap counts the raw URL stream,
duplicates included, before deduplication: with `max_results = 2` and the
resolvable stream `a, a, b` (two distinct URLs available), collection stops
after the duplicate pair, so the returned list is `[a]` — strictly fewer
than `max_results` elements. -/
theorem cap_counts_raw_stream :
    extract_real_article_url c10EntryB = some "http://dup.example/b" ∧
    search_google_news_urls [c10EntryA, c10EntryA, c10EntryB] 2 = ["http://dup.example/a"] ∧
    (search_google_news_urls [c10EntryA, c10EntryA, c10EntryB] 2).length < 2 ∧
    (Google100.google_custom_search c10Resp 2).1 = .ok ["http://dup.example/a"] ∧
    ∀ urls, (Google100.google_custom_search c10Resp 2).1 = .ok urls → urls.length < 2 := by
  refine ⟨by decide, by decide, by decide, ?_, ?_⟩
  · simp [Google100.google_custom_search, Google100.searchLoop, Google100.addLinks,
      c10Resp, dedupTruncate, dedupURLs, dedupAux]
  · intro urls h
    have he : (Google100.google_custom_search c10Resp 2).1 = .ok ["http://dup.example/a"] := by
      simp [Google100.google_custom_search, Google100.searchLoop, Google100.addLinks,
        c10Resp, dedupTruncate, dedupURLs, dedupAux]
    rw [he] at h
    cases h
    decide

theorem cap_counts_raw_stream_witness :
    (["http://dup.example/a"] : List String).length < 2 :=
  cap_counts_raw_stream.2.2.2.2 ["http://dup.example/a"] cap_counts_raw_stream.2.2.2.1
